import Mathlib

/-!
Verification model of the LogsOverReflector plugin
(`LogsOverReflector.indigoPlugin/Contents/Server Plugin/plugin.py`).

Strings are modelled as `List Char`.  Python's `str.lower()` is modelled by
`Char.toLower` on each character (the inputs of interest are ASCII), and the
`\d` / `\S` character classes of the `re` module are modelled by their ASCII
meaning (`Char.isDigit`, negation of the six ASCII whitespace characters).
Lines handed to the historical parser come from `readlines()` followed by
`rstrip("\r\n")`, so they never contain a newline character.
-/

namespace LogsOverReflector

/-- Python `s.lower()` on a character list. -/
def toLowerL (s : List Char) : List Char := s.map Char.toLower

/-- Python's substring test `need in hay` (`str.__contains__`). -/
def containsSub (need : List Char) : List Char → Bool
  | [] => need.isEmpty
  | c :: t => need.isPrefixOf (c :: t) || containsSub need t

/-- Python `raw_line.rstrip("\r\n")` (plugin.py line 266): drop the maximal
trailing run of carriage-return / newline characters. -/
def rstripCRLF (l : List Char) : List Char :=
  (l.reverse.dropWhile (fun c => c = '\r' || c = '\n')).reverse

/-- The six ASCII characters matched by Python's `\s` class (`\S` is its
negation). -/
def isPySpace (c : Char) : Bool :=
  c = ' ' || c = '\t' || c = '\n' || c = '\r' || c = '\x0c' || c = '\x0b'

/-- Shape check for the 20 fixed characters `YYYY-MM-DD HH:MM:SS.` that open
the timestamp of `_LOG_LINE_RE` (plugin.py line 27). -/
def tsFixedOk (p : List Char) : Bool :=
  match p with
  | [y1, y2, y3, y4, d1, m1, m2, d2, a1, a2, sp, h1, h2, c1, n1, n2, c2, s1, s2, dot] =>
    y1.isDigit && y2.isDigit && y3.isDigit && y4.isDigit && d1 = '-' &&
    m1.isDigit && m2.isDigit && d2 = '-' && a1.isDigit && a2.isDigit &&
    sp = ' ' && h1.isDigit && h2.isDigit && c1 = ':' && n1.isDigit && n2.isDigit &&
    c2 = ':' && s1.isDigit && s2.isDigit && dot = '.'
  | _ => false

/-- A full timestamp capture: the 20 fixed characters followed by a non-empty
run of fractional-second digits. -/
def tsOk (ts : List Char) : Bool :=
  tsFixedOk (ts.take 20) && !(ts.drop 20).isEmpty && (ts.drop 20).all Char.isDigit

/-- Embedding of `Plugin._LOG_LINE_RE.match` (plugin.py line 27):
`^(\d{4}-\d{2}-\d{2} \d{2}:\d{2}:\d{2}\.\d+)\t+(\S.*?)\t+(.*)$` applied to a
line without embedded newlines.  Returns the three capture groups
(timestamp, source, message).  Backtracking resolves as follows: the greedy
`\d+` ends at the first non-digit; the first `\t+` takes the maximal tab run
(the following `\S` rejects a tab); the non-greedy `(\S.*?)` stops at the
first tab after its first character; the second `\t+` is maximal because
`(.*)$` always matches the remainder.  `matchTail` handles the part of the
pattern after the timestamp (`\t+(\S.*?)\t+(.*)$`), taking the already
captured timestamp and the remainder of the line. -/
def matchTail (ts rest1 : List Char) : Option (List Char × List Char × List Char) :=
  let tabs1 := rest1.takeWhile (fun c => c = '\t')
  let rest2 := rest1.dropWhile (fun c => c = '\t')
  if tabs1.isEmpty then none
  else
    match rest2 with
    | [] => none
    | c :: _ =>
      if isPySpace c then none
      else
        let src := rest2.takeWhile (fun c => c ≠ '\t')
        let rest3 := rest2.dropWhile (fun c => c ≠ '\t')
        if rest3.isEmpty then none
        else some (ts, src, rest3.dropWhile (fun c => c = '\t'))

def matchLogLine (l : List Char) : Option (List Char × List Char × List Char) :=
  if tsFixedOk (l.take 20) then
    let rest0 := l.drop 20
    let frac := rest0.takeWhile Char.isDigit
    if frac.isEmpty then none
    else matchTail (l.take 20 ++ frac) (rest0.dropWhile Char.isDigit)
  else none

/-- The header-line grammar as described by the specification: a timestamp
capture, a non-empty tab run, a source that starts with a non-whitespace
character and runs up to the next tab run (hence contains no tab), a second
non-empty tab run that is maximal (the message does not start with a tab),
and the message as the remainder of the line. -/
def headerShape (l ts src msg : List Char) : Prop :=
  tsOk ts = true ∧
  ∃ n1 n2, 0 < n1 ∧ 0 < n2 ∧
    src ≠ [] ∧ (∀ c, src.head? = some c → isPySpace c = false) ∧ '\t' ∉ src ∧
    (∀ c, msg.head? = some c → c ≠ '\t') ∧
    l = ts ++ List.replicate n1 '\t' ++ src ++ List.replicate n2 '\t' ++ msg

/-- The dict `current_entry` built at plugin.py lines 270-274: the three
captured fields of an open entry. -/
structure OpenEntry where
  timestamp : List Char
  source : List Char
  message : List Char
deriving Repr, DecidableEq

/-- A historical entry as appended to `filtered` (plugin.py line 263);
`typeVal` is `None` for historical entries (line 262). -/
structure Entry where
  timestamp : List Char
  source : List Char
  message : List Char
  typeVal : Option Int
deriving Repr, DecidableEq

/-- The combined filter test of plugin.py lines 99-101 / 256-259 together
with the lower-casing of the search parameter at lines 75 / 226:
source filter is exact and case-sensitive, search filter is a
case-insensitive substring test on the message only. -/
def filterMatches (src msg sfilter search : List Char) : Bool :=
  (sfilter.isEmpty || src == sfilter) &&
    ((toLowerL search).isEmpty || containsSub (toLowerL search) (toLowerL msg))

/-- Emission of a closed entry in the two-phase reference parser. -/
def flushT : Option OpenEntry → List OpenEntry
  | none => []
  | some t => [t]

/-- Two-phase reference parser: the scan loop of plugin.py lines 265-281 with
the filtering removed, accumulating every completed entry in order together
with the count of unparsed leading lines. -/
def parseGo (cur : Option OpenEntry) (acc : List OpenEntry) (unp : Nat) :
    List (List Char) → List OpenEntry × Nat
  | [] => (acc ++ flushT cur, unp)
  | l :: ls =>
    let raw := rstripCRLF l
    match matchLogLine raw with
    | some (ts, src, msg) => parseGo (some ⟨ts, src, msg⟩) (acc ++ flushT cur) unp ls
    | none =>
      match cur with
      | some t => parseGo (some ⟨t.timestamp, t.source, t.message ++ '\n' :: raw⟩) acc unp ls
      | none => parseGo none acc (unp + 1) ls

/-- Parse a whole line sequence into completed entries plus the unparsed
leading-line count. -/
def parseAll (lines : List (List Char)) : List OpenEntry × Nat :=
  parseGo none [] 0 lines

/-- `_flush_entry` (plugin.py lines 252-263): push the open entry through the
source and search filters, setting `typeVal` to `None`. -/
def flushF (sfilter search : List Char) : Option OpenEntry → List Entry
  | none => []
  | some t =>
    if filterMatches t.source t.message sfilter search then
      [⟨t.timestamp, t.source, t.message, none⟩]
    else []

/-- The fused single-pass parse-and-filter loop of plugin.py lines 248-281. -/
def historyGo (sfilter search : List Char) (cur : Option OpenEntry) (acc : List Entry)
    (unp : Nat) : List (List Char) → List Entry × Nat
  | [] => (acc ++ flushF sfilter search cur, unp)
  | l :: ls =>
    let raw := rstripCRLF l
    match matchLogLine raw with
    | some (ts, src, msg) =>
      historyGo sfilter search (some ⟨ts, src, msg⟩) (acc ++ flushF sfilter search cur) unp ls
    | none =>
      match cur with
      | some t =>
        historyGo sfilter search (some ⟨t.timestamp, t.source, t.message ++ '\n' :: raw⟩)
          acc unp ls
      | none => historyGo sfilter search none acc (unp + 1) ls

/-- The fused scan started on empty state (plugin.py lines 248-250, 281):
the filtered entry list and the unparsed leading-line count. -/
def historyScan (sfilter search : List Char) (lines : List (List Char)) :
    List Entry × Nat :=
  historyGo sfilter search none [] 0 lines

/-- Filter step of the two-phase reference pipeline: keep a completed entry
iff it passes the filters, materialising it with `typeVal = None`. -/
def entryIfMatch (sfilter search : List Char) (t : OpenEntry) : Option Entry :=
  if filterMatches t.source t.message sfilter search then
    some ⟨t.timestamp, t.source, t.message, none⟩
  else none

/-- Python slice `l[a:b]` for non-negative clamped bounds. -/
def pySlice {α : Type} (l : List α) (a b : Nat) : List α :=
  (l.take b).drop a

/-- The pagination of plugin.py lines 113-121 and 289-297: skip the `off`
most recent entries, return up to `lim` entries from the older end, still in
ascending order.  Python's `max(0, end_index - line_count)` and the sign test
of `has_more` coincide with truncated `Nat` subtraction here. -/
def paginate {α : Type} (l : List α) (off lim : Nat) : List α × Bool :=
  let total := l.length
  let entries :=
    if total ≤ off then ([] : List α)
    else
      let endIndex := total - off
      let startIndex := endIndex - lim
      (l.take endIndex).drop startIndex
  (entries, decide (0 < total - off - entries.length))

/-- The fetch-size heuristic of plugin.py lines 81-82. -/
def fetchCount (off lim : Nat) (hasFilter : Bool) : Nat :=
  min ((off + lim + 1) * (if hasFilter then 3 else 1)) 10000

/-- A raw record returned by `indigo.server.getEventLogList` (plugin.py
lines 84-88); the timestamp is kept as its rendered string. -/
structure LiveRecord where
  Message : List Char
  TypeStr : List Char
  TypeVal : Int
  TimeStamp : List Char
deriving Repr, DecidableEq

/-- A live entry as appended to `filtered` at plugin.py lines 104-109. -/
structure LiveEntry where
  message : List Char
  source : List Char
  typeVal : Int
  timestamp : List Char
deriving Repr, DecidableEq

/-- The filter loop of plugin.py lines 91-109. -/
def liveFilter (raws : List LiveRecord) (sfilter search : List Char) : List LiveEntry :=
  raws.filterMap fun r =>
    if filterMatches r.TypeStr r.Message sfilter search then
      some ⟨r.Message, r.TypeStr, r.TypeVal, r.TimeStamp⟩
    else none

/-- The JSON result payload of the live handler (plugin.py lines 123-129). -/
structure LogResult where
  status : Nat
  success : Bool
  count : Nat
  totalFiltered : Nat
  hasMore : Bool
  entries : List LiveEntry
deriving Repr, DecidableEq

/-- The live handler `Plugin.log` (plugin.py lines 41-139) after parameter
clamping: `src` is the live source capability (`getEventLogList`), queried
once with the heuristic fetch count; `off` and `lim` are the clamped offset
and line count; `sfilter` / `search` are the stripped filter parameters. -/
def logPipeline (src : Nat → List LiveRecord) (off lim : Nat)
    (sfilter search : List Char) : LogResult :=
  let hasFilter := !sfilter.isEmpty || !search.isEmpty
  let raws := src (fetchCount off lim hasFilter)
  let filtered := liveFilter raws sfilter search
  let (entries, hasMore) := paginate filtered off lim
  ⟨200, true, entries.length, filtered.length, hasMore, entries⟩

/-- The JSON result payload of the historical handler, together with the
HTTP status and the error message of the failure branches. -/
structure HistoryResult where
  status : Nat
  success : Bool
  count : Nat
  totalFiltered : Nat
  hasMore : Bool
  entries : List Entry
  error : Option (List Char)
deriving Repr, DecidableEq

/-- The error message of plugin.py line 234 for an oversized file:
`"Log file too large (%d MB). Use source or search filters." % (file_size // (1024 * 1024))`. -/
def tooLargeMsg (fileSize : Nat) : List Char :=
  String.toList "Log file too large (" ++
    String.toList (toString (fileSize / (1024 * 1024))) ++
    String.toList " MB). Use source or search filters." 

/-- The historical handler `Plugin.history` (plugin.py lines 172-323) after
date validation and parameter clamping: the missing-file branch (lines
206-209), the 50 MB size guard (lines 229-235), then the fused
parse-filter-paginate pipeline (lines 246-308).  `fileExists`, `fileSize`
and `lines` stand for the file-store collaborator. -/
def historyPipeline (fileExists : Bool) (fileSize : Nat) (lines : List (List Char))
    (off lim : Nat) (sfilter search : List Char) : HistoryResult :=
  if !fileExists then ⟨200, true, 0, 0, false, [], none⟩
  else if fileSize > 50 * 1024 * 1024 then
    ⟨413, false, 0, 0, false, [], some (tooLargeMsg fileSize)⟩
  else
    let (filtered, _) := historyScan sfilter search lines
    let (entries, hasMore) := paginate filtered off lim
    ⟨200, true, entries.length, filtered.length, hasMore, entries, none⟩

/-- Split a message on embedded newline characters; always non-empty. -/
def splitNl : List Char → List (List Char)
  | [] => [[]]
  | c :: t =>
    if c = '\n' then [] :: splitNl t
    else
      match splitNl t with
      | [] => [[c]]
      | s :: rest => (c :: s) :: rest

/-- Join segments with newline characters (inverse of `splitNl`). -/
def joinNl : List (List Char) → List Char
  | [] => []
  | [s] => s
  | s :: r :: rest => s ++ '\n' :: joinNl (r :: rest)

/-- True when the final character is not carriage return or newline, so that
`rstripCRLF` leaves the list unchanged. -/
def lastNotCRLF (l : List Char) : Bool :=
  match l.getLast? with
  | none => true
  | some c => !(c = '\r' || c = '\n')

/-- Render an entry back to raw lines: one header line carrying the first
message segment, then one continuation line per further segment. -/
def renderEntry (e : OpenEntry) : List (List Char) :=
  match splitNl e.message with
  | [] => []
  | s0 :: rest => (e.timestamp ++ '\t' :: (e.source ++ '\t' :: s0)) :: rest

/-- Render a list of entries to one flat sequence of raw lines. -/
def renderAll (es : List OpenEntry) : List (List Char) :=
  (es.map renderEntry).flatten

/-- The head of the list, when present, is not a Python whitespace
character. -/
def headNotPySpace (l : List Char) : Bool :=
  match l.head? with
  | none => true
  | some c => !isPySpace c

/-- The head of the list, when present, is not a tab. -/
def headNotTab (l : List Char) : Bool :=
  match l.head? with
  | none => true
  | some c => !(c = '\t')

/-- Well-formedness of an entry for rendering: valid timestamp capture, a
source acceptable to the header grammar, a first message segment that does
not start with a tab, segments that survive `rstrip`, and continuation
segments that do not themselves match the header grammar. -/
def ValidRender (e : OpenEntry) : Prop :=
  tsOk e.timestamp = true ∧
  e.source ≠ [] ∧
  headNotPySpace e.source = true ∧
  '\t' ∉ e.source ∧
  headNotTab ((splitNl e.message).headD []) = true ∧
  (∀ seg ∈ splitNl e.message, lastNotCRLF seg = true) ∧
  (∀ seg ∈ (splitNl e.message).tail, matchLogLine seg = none)

instance (e : OpenEntry) : Decidable (ValidRender e) := by
  unfold ValidRender
  exact inferInstance

/-- Diagnostic level of plugin.py lines 283-286. -/
inductive DiagLevel where
  | silent
  | debugLevel
  | warningLevel
deriving Repr, DecidableEq

/-- The diagnostics decision of plugin.py lines 283-286: warning when some
lines went unparsed and the (post-filter) `filtered` list is empty, debug
when some lines went unparsed but `filtered` is non-empty. -/
def historyDiag (sfilter search : List Char) (lines : List (List Char)) : DiagLevel :=
  let (filtered, unp) := historyScan sfilter search lines
  if unp > 0 && filtered.isEmpty then .warningLevel
  else if unp > 0 then .debugLevel
  else .silent

/-! ### Helper lemmas -/

lemma spanOfParts {α : Type} (p : α → Bool) :
    ∀ (l1 l2 : List α), (∀ x ∈ l1, p x = true) →
      (∀ c, l2.head? = some c → p c = false) →
      (l1 ++ l2).takeWhile p = l1 ∧ (l1 ++ l2).dropWhile p = l2
  | [], l2, _, h2 => by
    cases l2 with
    | nil => simp
    | cons c t =>
      have hc := h2 c rfl
      simp [List.takeWhile_cons, List.dropWhile_cons, hc]
  | a :: l1, l2, h1, h2 => by
    have ha : p a = true := h1 a (by simp)
    have ih := spanOfParts p l1 l2 (fun x hx => h1 x (by simp [hx])) h2
    simp [List.takeWhile_cons, List.dropWhile_cons, ha, ih.1, ih.2]

lemma tsFixedOk_length {p : List Char} (h : tsFixedOk p = true) : p.length = 20 := by
  unfold tsFixedOk at h
  split at h
  · simp_all
  · simp at h

lemma matchLogLine_shape {l ts src msg : List Char}
    (h : matchLogLine l = some (ts, src, msg)) : headerShape l ts src msg := by
  unfold matchLogLine at h
  split at h
  case isFalse => exact absurd h (by simp)
  case isTrue h20 =>
    simp only at h
    split at h
    case isTrue => exact absurd h (by simp)
    case isFalse hfrac =>
      unfold matchTail at h
      simp only at h
      split at h
      case isTrue => exact absurd h (by simp)
      case isFalse htabs =>
        split at h
        case h_1 => exact absurd h (by simp)
        case h_2 c t hrest2 =>
          split at h
          case isTrue => exact absurd h (by simp)
          case isFalse hc =>
            split at h
            case isTrue => exact absurd h (by simp)
            case isFalse hr3 =>
              rw [Option.some.injEq] at h
              simp only [Prod.mk.injEq] at h
              obtain ⟨hts, hsrc, hmsg⟩ := h
              set rest0 := List.drop 20 l with hR0
              set frac := List.takeWhile Char.isDigit rest0 with hF
              set rest1 := List.dropWhile Char.isDigit rest0 with hR1
              set tabs1 := List.takeWhile (fun c => decide (c = '\t')) rest1 with hT1
              set rest2 := List.dropWhile (fun c => decide (c = '\t')) rest1 with hR2
              set src0 := List.takeWhile (fun c => decide (c ≠ '\t')) rest2 with hS
              set rest3 := List.dropWhile (fun c => decide (c ≠ '\t')) rest2 with hR3
              set tabs2 := List.takeWhile (fun c => decide (c = '\t')) rest3 with hT2
              set msg0 := List.dropWhile (fun c => decide (c = '\t')) rest3 with hM
              have hlen20 : (List.take 20 l).length = 20 := tsFixedOk_length h20
              have hfrne : frac ≠ [] := by simpa using hfrac
              have htsOk : tsOk ts = true := by
                have htk : ts.take 20 = List.take 20 l := by
                  rw [← hts]; exact List.take_left' hlen20
                have hdr : ts.drop 20 = frac := by
                  rw [← hts]; exact List.drop_left' hlen20
                unfold tsOk
                rw [htk, hdr, h20]
                simp only [Bool.true_and, Bool.and_eq_true, Bool.not_eq_true',
                  List.isEmpty_eq_false_iff_exists_mem, List.all_eq_true]
                constructor
                · rcases List.exists_mem_of_ne_nil frac hfrne with ⟨x, hx⟩
                  exact ⟨x, hx⟩
                · intro x hx
                  exact List.mem_takeWhile_imp hx
              have hct : c ≠ '\t' := by
                intro hh; rw [hh] at hc; exact hc (by decide)
              have hsrc0 : src0 = c :: List.takeWhile (fun c => decide (c ≠ '\t')) t := by
                rw [hS, hrest2, List.takeWhile_cons_of_pos (by simpa using hct)]
              have hr3ne : rest3 ≠ [] := by simpa using hr3
              obtain ⟨d, t3, hdt3⟩ : ∃ d t3, rest3 = d :: t3 := by
                cases h3 : rest3 with
                | nil => exact absurd h3 hr3ne
                | cons d t3 => exact ⟨d, t3, rfl⟩
              have hd : d = '\t' := by
                have hh := List.head?_dropWhile_not (fun c => decide (c ≠ '\t')) rest2
                rw [← hR3, hdt3] at hh
                simpa using hh
              have htabs2 : tabs2 = '\t' :: List.takeWhile (fun c => decide (c = '\t')) t3 := by
                rw [hT2, hdt3, hd, List.takeWhile_cons_of_pos (by decide)]
              refine ⟨htsOk, tabs1.length, tabs2.length, ?_, ?_, ?_, ?_, ?_, ?_, ?_⟩
              · have : tabs1 ≠ [] := by simpa using htabs
                exact List.length_pos.mpr this
              · rw [htabs2]; simp
              · rw [← hsrc, hsrc0]; simp
              · intro c' hc'
                rw [← hsrc, hsrc0] at hc'
                simp only [List.head?_cons, Option.some.injEq] at hc'
                rw [← hc']; exact Bool.eq_false_iff.mpr hc
              · intro hmem
                rw [← hsrc, hS] at hmem
                have := List.mem_takeWhile_imp hmem
                simp at this
              · intro c' hc'
                have hh := List.head?_dropWhile_not (fun c => decide (c = '\t')) rest3
                rw [← hM, hmsg, hc'] at hh
                simpa using hh
              · have e0 : l = List.take 20 l ++ rest0 := (List.take_append_drop 20 l).symm
                have e1 : rest0 = frac ++ rest1 := (List.takeWhile_append_dropWhile _ _).symm
                have e2 : rest1 = tabs1 ++ rest2 := (List.takeWhile_append_dropWhile _ _).symm
                have e3 : rest2 = src0 ++ rest3 := (List.takeWhile_append_dropWhile _ _).symm
                have e4 : rest3 = tabs2 ++ msg0 := (List.takeWhile_append_dropWhile _ _).symm
                have ht1rep : tabs1 = List.replicate tabs1.length '\t' := by
                  apply List.eq_replicate_of_mem
                  intro b hb
                  have := List.mem_takeWhile_imp hb
                  simpa using this
                have ht2rep : tabs2 = List.replicate tabs2.length '\t' := by
                  apply List.eq_replicate_of_mem
                  intro b hb
                  have := List.mem_takeWhile_imp hb
                  simpa using this
                rw [e0, e1, e2, e3, e4, ← hts, ← hsrc, ← hmsg, ← ht1rep, ← ht2rep]
                simp [List.append_assoc]

lemma matchTail_eval (ts : List Char) (m1 m2 : Nat) (c0 : Char) (cs msg : List Char)
    (hc0 : isPySpace c0 = false)
    (hnotab : '\t' ∉ c0 :: cs)
    (hmsghead : ∀ c, msg.head? = some c → c ≠ '\t') :
    matchTail ts (List.replicate (m1 + 1) '\t' ++
      (c0 :: cs ++ (List.replicate (m2 + 1) '\t' ++ msg))) = some (ts, c0 :: cs, msg) := by
  have hc0t : c0 ≠ '\t' := by
    intro hh; rw [hh] at hc0; exact absurd hc0 (by decide)
  have span2 := spanOfParts (fun c => decide (c = '\t')) (List.replicate (m1 + 1) '\t')
    (c0 :: cs ++ (List.replicate (m2 + 1) '\t' ++ msg))
    (fun x hx => by simp [List.eq_of_mem_replicate hx])
    (by intro c hc
        simp only [List.cons_append, List.head?_cons, Option.some.injEq] at hc
        simp [← hc, hc0t])
  have span3 := spanOfParts (fun c => decide (c ≠ '\t')) (c0 :: cs)
    (List.replicate (m2 + 1) '\t' ++ msg)
    (by intro x hx
        have hxx : x ≠ '\t' := fun hh => hnotab (hh ▸ hx)
        simpa using hxx)
    (by intro c hc
        rw [List.replicate_succ] at hc
        simp only [List.cons_append, List.head?_cons, Option.some.injEq] at hc
        simp [← hc])
  have span4 := spanOfParts (fun c => decide (c = '\t')) (List.replicate (m2 + 1) '\t') msg
    (fun x hx => by simp [List.eq_of_mem_replicate hx])
    (fun c hc => by simpa using hmsghead c hc)
  have hne1 : (List.replicate (m1 + 1) '\t').isEmpty = false := by
    simp [List.replicate_succ]
  have hne3 : (List.replicate (m2 + 1) '\t' ++ msg).isEmpty = false := by
    simp [List.replicate_succ]
  unfold matchTail
  simp only [span2.1, span2.2, hne1, Bool.false_eq_true, if_false]
  split
  next heq => simp at heq
  next c tail heq =>
    have hcc : c = c0 := by
      have := congrArg List.head? heq
      simpa using this.symm
    subst hcc
    simp only [hc0, Bool.false_eq_true, if_false, span3.1, span3.2, hne3, span4.2]

lemma shape_matchLogLine {l ts src msg : List Char}
    (h : headerShape l ts src msg) : matchLogLine l = some (ts, src, msg) := by
  obtain ⟨htsOk, n1, n2, hn1, hn2, hsrcne, hsrchead, hnotab, hmsghead, hl⟩ := h
  obtain ⟨m1, rfl⟩ : ∃ m, n1 = m + 1 := ⟨n1 - 1, by omega⟩
  obtain ⟨m2, rfl⟩ : ∃ m, n2 = m + 1 := ⟨n2 - 1, by omega⟩
  obtain ⟨c0, cs, rfl⟩ : ∃ c0 cs, src = c0 :: cs := by
    cases src with
    | nil => exact absurd rfl hsrcne
    | cons a b => exact ⟨a, b, rfl⟩
  have hc0 : isPySpace c0 = false := hsrchead c0 rfl
  simp only [tsOk, Bool.and_eq_true, Bool.not_eq_true', List.all_eq_true] at htsOk
  obtain ⟨⟨h20, hfrne⟩, hdig⟩ := htsOk
  have hlen : (ts.take 20).length = 20 := tsFixedOk_length h20
  have hl2 : l = ts.take 20 ++ (ts.drop 20 ++ (List.replicate (m1 + 1) '\t' ++
      (c0 :: cs ++ (List.replicate (m2 + 1) '\t' ++ msg)))) := by
    conv_rhs => rw [← List.append_assoc, List.take_append_drop]
    rw [hl]
    simp [List.append_assoc]
  have htake : l.take 20 = ts.take 20 := by
    rw [hl2]; exact List.take_left' hlen
  have hdrop : l.drop 20 = ts.drop 20 ++ (List.replicate (m1 + 1) '\t' ++
      (c0 :: cs ++ (List.replicate (m2 + 1) '\t' ++ msg))) := by
    rw [hl2]; exact List.drop_left' hlen
  have span1 := spanOfParts Char.isDigit (ts.drop 20)
    (List.replicate (m1 + 1) '\t' ++ (c0 :: cs ++ (List.replicate (m2 + 1) '\t' ++ msg)))
    (fun x hx => hdig x hx)
    (by intro c hc
        rw [List.replicate_succ] at hc
        simp only [List.cons_append, List.head?_cons, Option.some.injEq] at hc
        simp [← hc])
  unfold matchLogLine
  rw [htake, hdrop, if_pos h20]
  simp only [span1.1, span1.2, hfrne, Bool.false_eq_true, if_false]
  rw [List.take_append_drop]
  exact matchTail_eval ts m1 m2 c0 cs msg hc0 hnotab hmsghead

lemma matchLogLine_some_iff {l ts src msg : List Char} :
    matchLogLine l = some (ts, src, msg) ↔ headerShape l ts src msg :=
  ⟨matchLogLine_shape, shape_matchLogLine⟩

lemma parseGo_nil (cur acc unp) : parseGo cur acc unp [] = (acc ++ flushT cur, unp) := rfl

lemma parseGo_cons_some {l ts src msg : List Char}
    (h : matchLogLine (rstripCRLF l) = some (ts, src, msg)) (cur acc unp ls) :
    parseGo cur acc unp (l :: ls) = parseGo (some ⟨ts, src, msg⟩) (acc ++ flushT cur) unp ls := by
  simp [parseGo, h]

lemma parseGo_cons_none_open {l : List Char} (h : matchLogLine (rstripCRLF l) = none)
    (t : OpenEntry) (acc unp ls) :
    parseGo (some t) acc unp (l :: ls) =
      parseGo (some ⟨t.timestamp, t.source, t.message ++ '\n' :: rstripCRLF l⟩) acc unp ls := by
  simp [parseGo, h]

lemma parseGo_cons_none_closed {l : List Char} (h : matchLogLine (rstripCRLF l) = none)
    (acc unp ls) :
    parseGo none acc unp (l :: ls) = parseGo none acc (unp + 1) ls := by
  simp [parseGo, h]

lemma historyGo_nil (sfilter search cur acc unp) :
    historyGo sfilter search cur acc unp [] = (acc ++ flushF sfilter search cur, unp) := rfl

lemma historyGo_cons_some {l ts src msg : List Char}
    (h : matchLogLine (rstripCRLF l) = some (ts, src, msg)) (sfilter search cur acc unp ls) :
    historyGo sfilter search cur acc unp (l :: ls) =
      historyGo sfilter search (some ⟨ts, src, msg⟩)
        (acc ++ flushF sfilter search cur) unp ls := by
  simp [historyGo, h]

lemma historyGo_cons_none_open {l : List Char} (h : matchLogLine (rstripCRLF l) = none)
    (sfilter search : List Char) (t : OpenEntry) (acc unp ls) :
    historyGo sfilter search (some t) acc unp (l :: ls) =
      historyGo sfilter search (some ⟨t.timestamp, t.source, t.message ++ '\n' :: rstripCRLF l⟩)
        acc unp ls := by
  simp [historyGo, h]

lemma historyGo_cons_none_closed {l : List Char} (h : matchLogLine (rstripCRLF l) = none)
    (sfilter search : List Char) (acc unp ls) :
    historyGo sfilter search none acc unp (l :: ls) =
      historyGo sfilter search none acc (unp + 1) ls := by
  simp [historyGo, h]

lemma parseGo_append_acc :
    ∀ (ls : List (List Char)) (cur : Option OpenEntry) (acc : List OpenEntry) (unp : Nat),
      parseGo cur acc unp ls =
        (acc ++ (parseGo cur [] unp ls).1, (parseGo cur [] unp ls).2)
  | [], cur, acc, unp => by simp [parseGo_nil]
  | l :: ls, cur, acc, unp => by
    cases h : matchLogLine (rstripCRLF l) with
    | some v =>
      obtain ⟨ts, src, msg⟩ := v
      rw [parseGo_cons_some h, parseGo_cons_some h,
        parseGo_append_acc ls (some ⟨ts, src, msg⟩) (acc ++ flushT cur) unp,
        parseGo_append_acc ls (some ⟨ts, src, msg⟩) ([] ++ flushT cur) unp,
        parseGo_append_acc ls (some ⟨ts, src, msg⟩) [] unp]
      simp
    | none =>
      cases cur with
      | some t =>
        rw [parseGo_cons_none_open h, parseGo_cons_none_open h]
        exact parseGo_append_acc ls _ acc unp
      | none =>
        rw [parseGo_cons_none_closed h, parseGo_cons_none_closed h]
        exact parseGo_append_acc ls none acc (unp + 1)

lemma historyGo_append_acc (sfilter search : List Char) :
    ∀ (ls : List (List Char)) (cur : Option OpenEntry) (acc : List Entry) (unp : Nat),
      historyGo sfilter search cur acc unp ls =
        (acc ++ (historyGo sfilter search cur [] unp ls).1,
          (historyGo sfilter search cur [] unp ls).2)
  | [], cur, acc, unp => by simp [historyGo_nil]
  | l :: ls, cur, acc, unp => by
    cases h : matchLogLine (rstripCRLF l) with
    | some v =>
      obtain ⟨ts, src, msg⟩ := v
      rw [historyGo_cons_some h, historyGo_cons_some h,
        historyGo_append_acc sfilter search ls (some ⟨ts, src, msg⟩)
          (acc ++ flushF sfilter search cur) unp,
        historyGo_append_acc sfilter search ls (some ⟨ts, src, msg⟩)
          ([] ++ flushF sfilter search cur) unp,
        historyGo_append_acc sfilter search ls (some ⟨ts, src, msg⟩) [] unp]
      simp
    | none =>
      cases cur with
      | some t =>
        rw [historyGo_cons_none_open h, historyGo_cons_none_open h]
        exact historyGo_append_acc sfilter search ls _ acc unp
      | none =>
        rw [historyGo_cons_none_closed h, historyGo_cons_none_closed h]
        exact historyGo_append_acc sfilter search ls none acc (unp + 1)

lemma flushF_eq_filterMap (sfilter search : List Char) (cur : Option OpenEntry) :
    flushF sfilter search cur = (flushT cur).filterMap (entryIfMatch sfilter search) := by
  cases cur with
  | none => rfl
  | some t =>
    by_cases h : filterMatches t.source t.message sfilter search
    · simp [flushF, flushT, entryIfMatch, h]
    · simp [flushF, flushT, entryIfMatch, h]

lemma historyGo_eq_parse_filter (sfilter search : List Char) :
    ∀ (ls : List (List Char)) (cur : Option OpenEntry) (unp : Nat),
      historyGo sfilter search cur [] unp ls =
        ((parseGo cur [] unp ls).1.filterMap (entryIfMatch sfilter search),
          (parseGo cur [] unp ls).2)
  | [], cur, unp => by
    simp [historyGo_nil, parseGo_nil, flushF_eq_filterMap]
  | l :: ls, cur, unp => by
    cases h : matchLogLine (rstripCRLF l) with
    | some v =>
      obtain ⟨ts, src, msg⟩ := v
      rw [historyGo_cons_some h, parseGo_cons_some h,
        historyGo_append_acc sfilter search ls (some ⟨ts, src, msg⟩)
          ([] ++ flushF sfilter search cur) unp,
        historyGo_eq_parse_filter sfilter search ls (some ⟨ts, src, msg⟩) unp,
        parseGo_append_acc ls (some ⟨ts, src, msg⟩) ([] ++ flushT cur) unp]
      simp [flushF_eq_filterMap]
    | none =>
      cases cur with
      | some t =>
        rw [historyGo_cons_none_open h, parseGo_cons_none_open h]
        exact historyGo_eq_parse_filter sfilter search ls _ unp
      | none =>
        rw [historyGo_cons_none_closed h, parseGo_cons_none_closed h]
        exact historyGo_eq_parse_filter sfilter search ls none (unp + 1)

lemma paginate_fst_of_lt {α : Type} {l : List α} {off : Nat} (lim : Nat)
    (h : off < l.length) :
    (paginate l off lim).1 = (l.take (l.length - off)).drop (l.length - off - lim) := by
  simp [paginate, Nat.not_le.mpr h]

lemma paginate_fst_of_ge {α : Type} {l : List α} {off : Nat} (lim : Nat)
    (h : l.length ≤ off) : (paginate l off lim).1 = [] := by
  simp [paginate, h]

lemma paginate_snd {α : Type} (l : List α) (off lim : Nat) :
    (paginate l off lim).2 = decide (0 < l.length - off - (paginate l off lim).1.length) :=
  rfl

lemma paginate_length {α : Type} (l : List α) (off lim : Nat) :
    (paginate l off lim).1.length = min lim (l.length - off) := by
  by_cases h : off < l.length
  · rw [paginate_fst_of_lt lim h]
    simp [List.length_drop, List.length_take]
    omega
  · rw [paginate_fst_of_ge lim (by omega)]
    simp
    omega

lemma paginate_hasMore_iff {α : Type} (l : List α) (off lim : Nat) :
    (paginate l off lim).2 = true ↔ (off < l.length ∧ 0 < l.length - off - lim) := by
  rw [paginate_snd, paginate_length]
  simp only [decide_eq_true_eq]
  omega

lemma toLowerL_eq_nil_iff {s : List Char} : toLowerL s = [] ↔ s = [] := by
  simp [toLowerL]

lemma isPrefixOf_iff_isPre {l1 l2 : List Char} : l1.isPrefixOf l2 = true ↔ l1 <+: l2 := by
  exact List.isPrefixOf_iff_prefix

lemma containsSub_iff {need : List Char} :
    ∀ {hay : List Char}, containsSub need hay = true ↔ need <:+: hay
  | [] => by
    simp only [containsSub, List.isEmpty_iff]
    constructor
    · rintro rfl; exact List.nil_infix
    · intro h; exact List.eq_nil_of_infix_nil h
  | c :: t => by
    rw [containsSub, Bool.or_eq_true, isPrefixOf_iff_isPre, containsSub_iff,
      List.infix_cons_iff]

lemma rstrip_of_lastNot {l : List Char} (h : lastNotCRLF l = true) : rstripCRLF l = l := by
  unfold rstripCRLF
  cases hr : l.reverse with
  | nil =>
    simp [List.reverse_eq_nil_iff.mp hr]
  | cons c t =>
    have hc : (c = '\r' || c = '\n') = false := by
      unfold lastNotCRLF at h
      rw [← List.head?_reverse, hr] at h
      simpa using h
    rw [List.dropWhile_cons_of_neg (by simp [hc]), ← hr, List.reverse_reverse]

lemma splitNl_ne_nil (m : List Char) : splitNl m ≠ [] := by
  cases m with
  | nil => simp [splitNl]
  | cons c t =>
    unfold splitNl
    split
    · simp
    · split <;> simp

lemma splitNl_cons_exists (m : List Char) : ∃ s0 segs, splitNl m = s0 :: segs := by
  cases h : splitNl m with
  | nil => exact absurd h (splitNl_ne_nil m)
  | cons s0 segs => exact ⟨s0, segs, rfl⟩

lemma joinNl_cons_append (a b : List Char) (rest : List (List Char)) :
    joinNl ((a ++ b) :: rest) = a ++ joinNl (b :: rest) := by
  cases rest with
  | nil => simp [joinNl]
  | cons r t => simp [joinNl, List.append_assoc]

lemma joinNl_splitNl (m : List Char) : joinNl (splitNl m) = m := by
  induction m with
  | nil => rfl
  | cons c t ih =>
    obtain ⟨s, rest, hsr⟩ := splitNl_cons_exists t
    unfold splitNl
    by_cases h : c = '\n'
    · subst h
      rw [if_pos rfl, hsr]
      have hj : joinNl ([] :: s :: rest) = [] ++ '\n' :: joinNl (s :: rest) := rfl
      rw [hj, ← hsr, ih]
      simp
    · rw [if_neg h, hsr]
      have hj : joinNl ((c :: s) :: rest) = c :: joinNl (s :: rest) := by
        cases rest <;> rfl
      show joinNl ((c :: s) :: rest) = c :: t
      rw [hj, ← hsr, ih]

lemma foldl_joinNl :
    ∀ (segs : List (List Char)) (m : List Char),
      segs.foldl (fun a s => a ++ '\n' :: s) m = joinNl (m :: segs)
  | [], m => by simp [joinNl]
  | s :: rest, m => by
    rw [List.foldl_cons, foldl_joinNl rest (m ++ '\n' :: s)]
    calc joinNl ((m ++ '\n' :: s) :: rest)
        = m ++ joinNl (('\n' :: s) :: rest) := joinNl_cons_append m ('\n' :: s) rest
      _ = m ++ (['\n'] ++ joinNl (s :: rest)) := by
          rw [show ('\n' :: s) = ['\n'] ++ s from rfl, joinNl_cons_append]
      _ = joinNl (m :: s :: rest) := by
          have hj : joinNl (m :: s :: rest) = m ++ '\n' :: joinNl (s :: rest) := rfl
          rw [hj]
          simp

lemma parseGo_cont :
    ∀ (segs : List (List Char)) (ts src m : List Char) (acc : List OpenEntry) (unp : Nat)
      (rest : List (List Char)),
      (∀ s ∈ segs, matchLogLine s = none ∧ rstripCRLF s = s) →
      parseGo (some ⟨ts, src, m⟩) acc unp (segs ++ rest) =
        parseGo (some ⟨ts, src, segs.foldl (fun a s => a ++ '\n' :: s) m⟩) acc unp rest
  | [], ts, src, m, acc, unp, rest, _ => by simp
  | s :: segs, ts, src, m, acc, unp, rest, h => by
    have hs := h s (by simp)
    have hmatch : matchLogLine (rstripCRLF s) = none := by rw [hs.2]; exact hs.1
    rw [List.cons_append, parseGo_cons_none_open hmatch]
    simp only [hs.2, List.foldl_cons]
    exact parseGo_cont segs ts src (m ++ '\n' :: s) acc unp rest
      (fun x hx => h x (by simp [hx]))

lemma header_lastNot (e : OpenEntry) (s0 : List Char)
    (h : lastNotCRLF s0 = true) :
    lastNotCRLF (e.timestamp ++ '\t' :: (e.source ++ '\t' :: s0)) = true := by
  unfold lastNotCRLF at h ⊢
  cases hs : s0.getLast? with
  | none =>
    have hs0 : s0 = [] := by
      cases s0 with
      | nil => rfl
      | cons a b => exact absurd (List.getLast?_eq_none_iff.mp hs) (by simp)
    subst hs0
    rw [show e.timestamp ++ '\t' :: (e.source ++ '\t' :: ([] : List Char)) =
      (e.timestamp ++ '\t' :: e.source) ++ ['\t'] from by
        rw [List.append_assoc, List.cons_append], List.getLast?_concat]
    rfl
  | some c =>
    rw [hs] at h
    have key : (e.timestamp ++ '\t' :: (e.source ++ '\t' :: s0)).getLast? = some c := by
      rw [show '\t' :: (e.source ++ '\t' :: s0) =
            ('\t' :: e.source) ++ (['\t'] ++ s0) from by simp,
        List.getLast?_append, List.getLast?_append, List.getLast?_append, hs]
      rfl
    rw [key]
    exact h

lemma header_rstrip (e : OpenEntry) (s0 : List Char) (h : lastNotCRLF s0 = true) :
    rstripCRLF (e.timestamp ++ '\t' :: (e.source ++ '\t' :: s0)) =
      e.timestamp ++ '\t' :: (e.source ++ '\t' :: s0) :=
  rstrip_of_lastNot (header_lastNot e s0 h)

lemma header_match (e : OpenEntry) (hv : ValidRender e) {s0 : List Char}
    {segs : List (List Char)} (hsplit : splitNl e.message = s0 :: segs) :
    matchLogLine (e.timestamp ++ '\t' :: (e.source ++ '\t' :: s0)) =
      some (e.timestamp, e.source, s0) := by
  apply shape_matchLogLine
  obtain ⟨hts, hne, hhead, hnotab, hs0, _, _⟩ := hv
  rw [hsplit] at hs0
  simp only [List.headD_cons] at hs0
  refine ⟨hts, 1, 1, one_pos, one_pos, hne, ?_, hnotab, ?_, ?_⟩
  · intro c hc
    unfold headNotPySpace at hhead
    rw [hc] at hhead
    simpa using hhead
  · intro c hc
    unfold headNotTab at hs0
    rw [hc] at hs0
    simpa using hs0
  · simp [List.replicate, List.append_assoc]

lemma parseGo_render :
    ∀ (es : List OpenEntry) (cur : Option OpenEntry) (acc : List OpenEntry) (unp : Nat),
      (∀ e ∈ es, ValidRender e) →
      parseGo cur acc unp (renderAll es) = (acc ++ flushT cur ++ es, unp)
  | [], cur, acc, unp, _ => by
    simp [renderAll, parseGo_nil]
  | e :: es, cur, acc, unp, h => by
    have hv := h e (by simp)
    obtain ⟨s0, segs, hsplit⟩ := splitNl_cons_exists e.message
    have hra : renderAll (e :: es) =
        (e.timestamp ++ '\t' :: (e.source ++ '\t' :: s0)) :: (segs ++ renderAll es) := by
      simp [renderAll, renderEntry, hsplit]
    have hs0last : lastNotCRLF s0 = true := hv.2.2.2.2.2.1 s0 (by rw [hsplit]; simp)
    have hstrip := header_rstrip e s0 hs0last
    have hmatch : matchLogLine
        (rstripCRLF (e.timestamp ++ '\t' :: (e.source ++ '\t' :: s0))) =
        some (e.timestamp, e.source, s0) := by
      rw [hstrip]; exact header_match e hv hsplit
    rw [hra, parseGo_cons_some hmatch,
      parseGo_cont segs e.timestamp e.source s0 _ _ _
        (by intro s hs
            constructor
            · exact hv.2.2.2.2.2.2 s (by rw [hsplit]; simpa using hs)
            · exact rstrip_of_lastNot (hv.2.2.2.2.2.1 s (by rw [hsplit]; simp [hs]))),
      foldl_joinNl, ← hsplit, joinNl_splitNl,
      parseGo_render es _ _ _ (fun x hx => h x (by simp [hx]))]
    simp [flushT]

/-! ### Claim theorems -/

/-- C1: For every list in ascending order, every offset and every limit ≥ 1,
the paginator returns the empty page when the offset reaches the total and
otherwise the slice `filteredEntries[max(0, total - offset - limit) :
total - offset]`, and in both cases `hasMore = (total - offset - len(page)) > 0`;
the live handler and the historical handler both compute exactly this
window. -/
theorem C1_paginator_window :
    (∀ (α : Type) (filteredEntries : List α) (offset limit : Nat), 1 ≤ limit →
      (filteredEntries.length ≤ offset → (paginate filteredEntries offset limit).1 = []) ∧
      (offset < filteredEntries.length →
        (paginate filteredEntries offset limit).1 =
          pySlice filteredEntries (filteredEntries.length - offset - limit)
            (filteredEntries.length - offset)) ∧
      (paginate filteredEntries offset limit).2 =
        decide (0 < filteredEntries.length - offset -
          (paginate filteredEntries offset limit).1.length)) ∧
    (∀ (src : Nat → List LiveRecord) (offset limit : Nat) (sfilter search : List Char),
      (logPipeline src offset limit sfilter search).entries =
        (paginate (liveFilter (src (fetchCount offset limit
          (!sfilter.isEmpty || !search.isEmpty))) sfilter search) offset limit).1 ∧
      (logPipeline src offset limit sfilter search).hasMore =
        (paginate (liveFilter (src (fetchCount offset limit
          (!sfilter.isEmpty || !search.isEmpty))) sfilter search) offset limit).2) ∧
    (∀ (fileSize : Nat) (lines : List (List Char)) (offset limit : Nat)
        (sfilter search : List Char), fileSize ≤ 50 * 1024 * 1024 →
      (historyPipeline true fileSize lines offset limit sfilter search).entries =
        (paginate (historyScan sfilter search lines).1 offset limit).1 ∧
      (historyPipeline true fileSize lines offset limit sfilter search).hasMore =
        (paginate (historyScan sfilter search lines).1 offset limit).2) := by
  refine ⟨?_, ?_, ?_⟩
  · intro α l off lim _
    refine ⟨fun h => paginate_fst_of_ge lim h, fun h => ?_, paginate_snd l off lim⟩
    rw [paginate_fst_of_lt lim h]
    rfl
  · intro src off lim sf se
    exact ⟨rfl, rfl⟩
  · intro fs lines off lim sf se h
    have h' : ¬ fs > 50 * 1024 * 1024 := Nat.not_lt.mpr h
    constructor <;> simp [historyPipeline, h']

/-- Witness for C1: offset beyond the total yields the empty page. -/
theorem C1_paginator_window_witness : (paginate ([10, 20] : List Nat) 5 1).1 = [] :=
  (C1_paginator_window.1 Nat [10, 20] 5 1 (by decide)).1 (by decide)

/-- C2: The header regex matches exactly the grammar `TIMESTAMP <tab-run>
SOURCE <tab-run> MESSAGE`; during the scan a matching line closes the open
entry and opens a new one, a non-matching line with an open entry appends a
newline plus the raw line to its message, a non-matching line with no open
entry counts as an unparsed leading line, and end of input flushes the open
entry; the spec's Example 1 parses to the two stated entries. -/
theorem C2_parser_scan :
    (∀ (l ts src msg : List Char),
      matchLogLine l = some (ts, src, msg) ↔ headerShape l ts src msg) ∧
    (∀ (cur : Option OpenEntry) (acc : List OpenEntry) (unp : Nat) (l : List Char)
        (ls : List (List Char)) (ts src msg : List Char),
      matchLogLine (rstripCRLF l) = some (ts, src, msg) →
      parseGo cur acc unp (l :: ls) =
        parseGo (some ⟨ts, src, msg⟩) (acc ++ flushT cur) unp ls) ∧
    (∀ (t : OpenEntry) (acc : List OpenEntry) (unp : Nat) (l : List Char)
        (ls : List (List Char)),
      matchLogLine (rstripCRLF l) = none →
      parseGo (some t) acc unp (l :: ls) =
        parseGo (some ⟨t.timestamp, t.source, t.message ++ '\n' :: rstripCRLF l⟩)
          acc unp ls) ∧
    (∀ (acc : List OpenEntry) (unp : Nat) (l : List Char) (ls : List (List Char)),
      matchLogLine (rstripCRLF l) = none →
      parseGo none acc unp (l :: ls) = parseGo none acc (unp + 1) ls) ∧
    (∀ (cur : Option OpenEntry) (acc : List OpenEntry) (unp : Nat),
      parseGo cur acc unp [] = (acc ++ flushT cur, unp)) ∧
    parseAll [String.toList "2024-01-01 10:00:00.000\tPlugin\tHello",
        String.toList "  more text",
        String.toList "2024-01-01 10:00:01.000\tOther\tWorld"] =
      ([⟨String.toList "2024-01-01 10:00:00.000", String.toList "Plugin",
          String.toList "Hello\n  more text"⟩,
        ⟨String.toList "2024-01-01 10:00:01.000", String.toList "Other",
          String.toList "World"⟩], 0) := by
  refine ⟨fun l ts src msg => matchLogLine_some_iff, ?_, ?_, ?_, ?_, by decide⟩
  · intro cur acc unp l ls ts src msg h
    exact parseGo_cons_some h cur acc unp ls
  · intro t acc unp l ls h
    exact parseGo_cons_none_open h t acc unp ls
  · intro acc unp l ls h
    exact parseGo_cons_none_closed h acc unp ls
  · intro cur acc unp
    exact parseGo_nil cur acc unp

/-- Witness for C2: a non-matching leading line is counted and discarded. -/
theorem C2_parser_scan_witness :
    parseGo none [] 0 [String.toList "garbage"] = parseGo none [] (0 + 1) [] :=
  C2_parser_scan.2.2.2.1 [] 0 (String.toList "garbage") [] (by decide)

/-- C3: The filter predicate holds iff the source filter is empty or equals
the entry source exactly (case-sensitively), and the search filter is empty
or its lower-cased form is a substring of the lower-cased message; the two
criteria combine by logical AND and the search looks at the message only. -/
theorem C3_filter_predicate :
    ∀ (src msg sfilter search : List Char),
      filterMatches src msg sfilter search = true ↔
        ((sfilter = [] ∨ src = sfilter) ∧
         (search = [] ∨ ∃ pre post, pre ++ toLowerL search ++ post = toLowerL msg)) := by
  intro src msg sf se
  unfold filterMatches
  rw [Bool.and_eq_true, Bool.or_eq_true, Bool.or_eq_true, beq_iff_eq,
    List.isEmpty_iff, List.isEmpty_iff, toLowerL_eq_nil_iff, containsSub_iff]
  exact Iff.rfl

/-- C4: The live-path fetch sizer requests exactly
`min((offset + limit + 1) * (3 if any filter else 1), 10000)` records; the
live pipeline depends on the live source only through its answer at that
count; offset 0, limit 100 with filters active requests 303 records. -/
theorem C4_fetch_sizer :
    (∀ (offset limit : Nat) (hasFilter : Bool), 1 ≤ limit →
      fetchCount offset limit hasFilter =
        min ((offset + limit + 1) * (if hasFilter then 3 else 1)) 10000) ∧
    (∀ (src src' : Nat → List LiveRecord) (offset limit : Nat)
        (sfilter search : List Char), 1 ≤ limit →
      src (fetchCount offset limit (!sfilter.isEmpty || !search.isEmpty)) =
        src' (fetchCount offset limit (!sfilter.isEmpty || !search.isEmpty)) →
      logPipeline src offset limit sfilter search =
        logPipeline src' offset limit sfilter search) ∧
    fetchCount 0 100 true = 303 := by
  refine ⟨fun _ _ _ _ => rfl, ?_, by decide⟩
  intro src src' off lim sf se _ h
  simp only [logPipeline]
  rw [h]

/-- Witness for C4: the formula at offset 0, limit 100, filters active. -/
theorem C4_fetch_sizer_witness :
    fetchCount 0 100 true = min ((0 + 100 + 1) * (if true then 3 else 1)) 10000 :=
  C4_fetch_sizer.1 0 100 true (by decide)

/-- C5: For every ascending filtered sequence, offset ≥ 0 and limit ≥ 1, the
page has length at most the limit, is a contiguous sub-slice of the input
(hence stays ascending for any ordering the input satisfies), `hasMore` is
true iff the page's start index is positive, and the three boundary cases
hold: offset equal to total, offset 0 with limit equal to total, and the
empty sequence. -/
theorem C5_paginator_properties :
    ∀ (α : Type) (l : List α) (offset limit : Nat), 1 ≤ limit →
      (paginate l offset limit).1.length ≤ limit ∧
      (∃ pre post, pre ++ (paginate l offset limit).1 ++ post = l) ∧
      (∀ (r : α → α → Prop), l.Pairwise r → (paginate l offset limit).1.Pairwise r) ∧
      ((paginate l offset limit).2 = true ↔
        (offset < l.length ∧ 0 < l.length - offset - limit)) ∧
      paginate l l.length limit = ([], false) ∧
      (l.length = limit → paginate l 0 limit = (l, false)) ∧
      paginate ([] : List α) offset limit = ([], false) := by
  intro α l off lim hlim
  refine ⟨?_, ?_, ?_, paginate_hasMore_iff l off lim, ?_, ?_, ?_⟩
  · rw [paginate_length l off lim]
    exact Nat.min_le_left _ _
  · by_cases h : off < l.length
    · refine ⟨(l.take (l.length - off)).take (l.length - off - lim),
        l.drop (l.length - off), ?_⟩
      rw [paginate_fst_of_lt lim h, List.take_append_drop, List.take_append_drop]
    · exact ⟨[], l, by rw [paginate_fst_of_ge lim (Nat.not_lt.mp h)]; simp⟩
  · intro r hr
    have hsub : List.Sublist (paginate l off lim).1 l := by
      by_cases h : off < l.length
      · rw [paginate_fst_of_lt lim h]
        exact (List.drop_sublist _ _).trans (List.take_sublist _ _)
      · rw [paginate_fst_of_ge lim (Nat.not_lt.mp h)]
        exact List.nil_sublist l
    exact hr.sublist hsub
  · simp [paginate]
  · intro hl
    have h1 : (paginate l 0 lim).1 = l := by
      have hpos : 0 < l.length := by omega
      rw [paginate_fst_of_lt lim hpos]
      have e1 : l.length - 0 = l.length := by omega
      have e2 : l.length - lim = 0 := by omega
      rw [e1, e2, List.take_length, List.drop_zero]
    have h2 : (paginate l 0 lim).2 = false := by
      rw [paginate_snd, h1]
      have e3 : l.length - 0 - l.length = 0 := by omega
      rw [e3]
      rfl
    have heta : paginate l 0 lim = ((paginate l 0 lim).1, (paginate l 0 lim).2) := rfl
    rw [heta, h1, h2]
  · simp [paginate]

/-- Witness for C5: a page never exceeds the limit. -/
theorem C5_paginator_properties_witness : (paginate ([5, 6] : List Nat) 0 2).1.length ≤ 2 :=
  (C5_paginator_properties Nat [5, 6] 0 2 (by decide)).1

/-- Counterexample to C6 as stated: on the input
`["garbage", "2024-01-01 10:00:00.000\tA\tx"]` with source filter `"B"`, the
parse emits one entry (so the claim demands only the debug-level
diagnostic), yet the code raises the warning-level diagnostic, because the
code tests the post-filter list rather than the parsed entries. -/
theorem C6_diag_counterexample :
    historyDiag (String.toList "B") []
        [String.toList "garbage", String.toList "2024-01-01 10:00:00.000\tA\tx"] =
      DiagLevel.warningLevel ∧
    (parseAll [String.toList "garbage",
        String.toList "2024-01-01 10:00:00.000\tA\tx"]).1.length = 1 ∧
    (parseAll [String.toList "garbage",
        String.toList "2024-01-01 10:00:00.000\tA\tx"]).2 = 1 ∧
    historyDiag (String.toList "B") []
        [String.toList "garbage", String.toList "2024-01-01 10:00:00.000\tA\tx"] ≠
      DiagLevel.debugLevel := by
  decide

/-- C6 (amended): the warning-level diagnostic is raised iff at least one
unparsed leading line was seen and no entry survived the source/search
filter; the debug-level diagnostic is raised iff lines went unparsed but
some entry survived the filter; and in either case the request still
succeeds with status 200. -/
theorem C6_diag_amended :
    ∀ (sfilter search : List Char) (lines : List (List Char))
      (fileSize offset limit : Nat),
      (historyDiag sfilter search lines = DiagLevel.warningLevel ↔
        (0 < (historyScan sfilter search lines).2 ∧
          (historyScan sfilter search lines).1 = [])) ∧
      (historyDiag sfilter search lines = DiagLevel.debugLevel ↔
        (0 < (historyScan sfilter search lines).2 ∧
          (historyScan sfilter search lines).1 ≠ [])) ∧
      (fileSize ≤ 50 * 1024 * 1024 →
        (historyPipeline true fileSize lines offset limit sfilter search).status = 200 ∧
        (historyPipeline true fileSize lines offset limit sfilter search).success = true) := by
  intro sf se lines fs off lim
  refine ⟨?_, ?_, ?_⟩
  · unfold historyDiag
    rcases hp : historyScan sf se lines with ⟨f, u⟩
    by_cases h1 : u > 0 <;> by_cases h2 : f.isEmpty <;>
      simp_all [List.isEmpty_iff]
  · unfold historyDiag
    rcases hp : historyScan sf se lines with ⟨f, u⟩
    by_cases h1 : u > 0 <;> by_cases h2 : f.isEmpty <;>
      simp_all [List.isEmpty_iff]
  · intro h
    have h' : ¬ fs > 50 * 1024 * 1024 := Nat.not_lt.mpr h
    constructor <;> simp [historyPipeline, h']

/-- Witness for C6 (amended): the success clause at a concrete input. -/
theorem C6_diag_amended_witness :
    (historyPipeline true 0 [] 0 1 [] []).status = 200 ∧
    (historyPipeline true 0 [] 0 1 [] []).success = true :=
  (C6_diag_amended [] [] [] 0 0 1).2.2 (by decide)

/-- C7: Rendering entries as one header line each followed by their
continuation lines (none of which matches the header grammar) and parsing
the result reconstructs every entry — in particular every message, embedded
newlines included — exactly, with no unparsed lines. -/
theorem C7_render_parse_roundtrip :
    ∀ (es : List OpenEntry), (∀ e ∈ es, ValidRender e) →
      parseAll (renderAll es) = (es, 0) := by
  intro es h
  unfold parseAll
  rw [parseGo_render es none [] 0 h]
  rfl

/-- Witness for C7: round trip on a concrete multi-line entry. -/
theorem C7_render_parse_roundtrip_witness :
    parseAll (renderAll [⟨String.toList "2024-01-01 10:00:00.000",
        String.toList "Plugin", String.toList "Hello\n  more"⟩]) =
      ([⟨String.toList "2024-01-01 10:00:00.000",
        String.toList "Plugin", String.toList "Hello\n  more"⟩], 0) :=
  C7_render_parse_roundtrip _ (by decide)

/-- C8: When no per-day log file exists for a valid date, the historical
handler returns success: status 200, success true, count 0, totalFiltered 0,
hasMore false and an empty entries list, for all other parameters. -/
theorem C8_notfound_as_empty :
    ∀ (fileSize : Nat) (lines : List (List Char)) (offset limit : Nat)
      (sfilter search : List Char),
      historyPipeline false fileSize lines offset limit sfilter search =
        ⟨200, true, 0, 0, false, [], none⟩ :=
  fun _ _ _ _ _ _ => rfl

/-- C9: A historical file larger than 50 MiB is rejected with status 413,
success false and the too-large message; the answer does not depend on the
file content (the file is never parsed); the message reports the size in
whole megabytes, and at 60 MiB it contains `"60 MB"`. -/
theorem C9_size_guard :
    (∀ (fileSize : Nat) (lines lines' : List (List Char)) (offset limit : Nat)
        (sfilter search : List Char), 50 * 1024 * 1024 < fileSize →
      (historyPipeline true fileSize lines offset limit sfilter search).status = 413 ∧
      (historyPipeline true fileSize lines offset limit sfilter search).success = false ∧
      (historyPipeline true fileSize lines offset limit sfilter search).error =
        some (tooLargeMsg fileSize) ∧
      historyPipeline true fileSize lines offset limit sfilter search =
        historyPipeline true fileSize lines' offset limit sfilter search ∧
      containsSub (String.toList (toString (fileSize / (1024 * 1024))) ++
        String.toList " MB") (tooLargeMsg fileSize) = true) ∧
    containsSub (String.toList "60 MB") (tooLargeMsg (60 * 1024 * 1024)) = true := by
  refine ⟨?_, by decide⟩
  intro fs lines lines' off lim sf se h
  refine ⟨by simp [historyPipeline, h], by simp [historyPipeline, h],
    by simp [historyPipeline, h], by simp [historyPipeline, h], ?_⟩
  apply containsSub_iff.mpr
  refine ⟨String.toList "Log file too large (",
    String.toList "). Use source or search filters.", ?_⟩
  unfold tooLargeMsg
  have hMB : String.toList " MB" ++ String.toList "). Use source or search filters." =
      String.toList " MB). Use source or search filters." := by decide
  rw [← hMB]
  simp [List.append_assoc]

/-- Witness for C9: the status at a concrete 60 MiB file. -/
theorem C9_size_guard_witness :
    (historyPipeline true (60 * 1024 * 1024) [] 0 1 [] []).status = 413 :=
  (C9_size_guard.1 (60 * 1024 * 1024) [] [] 0 1 [] [] (by decide)).1

/-- C10: The fused single-pass parse-and-filter of the historical handler
produces exactly the filtered list obtained by first parsing all lines into
completed entries and then filtering each; in particular a search term that
only occurs in a continuation line still matches, because the filter sees
the fully reconstructed message. -/
theorem C10_fused_equivalence :
    (∀ (sfilter search : List Char) (lines : List (List Char)),
      historyScan sfilter search lines =
        ((parseAll lines).1.filterMap (entryIfMatch sfilter search),
          (parseAll lines).2)) ∧
    historyScan [] (String.toList "traceback")
        [String.toList "2024-01-01 10:00:00.000\tPlugin\tBoom",
          String.toList "  traceback line"] =
      ([⟨String.toList "2024-01-01 10:00:00.000", String.toList "Plugin",
          String.toList "Boom\n  traceback line", none⟩], 0) := by
  constructor
  · intro sf se lines
    unfold historyScan parseAll
    exact historyGo_eq_parse_filter sf se lines none 0
  · decide

end LogsOverReflector
